import Mathlib

/-!
Verification of the DP-Heuristic QKP repository (src/algorithms.py, src/utils.py).

Modelling conventions:
* Weights are modelled as a function `w : ℕ → ℕ` together with an explicit item
  count `n` (Python computes `n = len(weights)` and only ever indexes
  `weights[0..n-1]`); capacities are `ℕ`.
* The profit matrix is modelled as `p : ℕ → ℕ → ℤ`; every in-range access of the
  Python list of lists is total, so list indexing becomes function application.
  The Python floats produced by these programs carry exact integer values
  (sums of matrix entries), modelled in `ℤ`.
* NumPy's `-np.inf` infeasibility sentinel is modelled by `⊥ : WithBot ℤ`;
  the NumPy comparisons `>`/`==` against `-inf` coincide with the `WithBot`
  order, and `np.argmax` / `list.index(max(..))` both return the first index
  attaining the maximum, modelled by `bestIdx`.
* CPython iterates a `set` of small item indices in increasing order (small
  ints hash to themselves), so `itertools.combinations(s, 2)` in the validator
  is modelled as the pairs `(i, j)` of the set with `i < j`.
* A second, `Except`-valued embedding (the `...E` definitions) keeps the
  weights and the profit matrix as genuine lists so that out-of-range accesses
  (Python `IndexError`) are observable; it is used for the dimension-mismatch
  claim, where the two dimensions can disagree.
-/

/-- Total weight of a selection: `sum(weights[i] for i in s)`. -/
def wsum (w : ℕ → ℕ) (s : Finset ℕ) : ℕ :=
  ∑ i ∈ s, w i

/-- The profit the DP engines accumulate for a witness set built by inserting
items in increasing index order: self-profits plus, for each in-set pair, the
single entry `p i j` of the later-added item `i` against the earlier item `j`
(`i > j`).  This is the quantity `dp` tracks in all three engines. -/
def qkpProfit (p : ℕ → ℕ → ℤ) (s : Finset ℕ) : ℤ :=
  ∑ i ∈ s, p i i + ∑ i ∈ s, ∑ j ∈ s.filter (fun j => j < i), p i j

/-- The profit computed by the validator `compute_profit_and_items`
(src/utils.py lines 27-36): self-profits plus, for each unordered pair of the
set, the single entry `p i j` with `i < j` (set iteration order). -/
def validatorProfit (p : ℕ → ℕ → ℤ) (s : Finset ℕ) : ℤ :=
  ∑ i ∈ s, p i i + ∑ i ∈ s, ∑ j ∈ s.filter (fun j => i < j), p i j

/-- src/utils.py lines 5-38, `compute_profit_and_items`: if the total weight of
the candidate set exceeds the capacity, return `(None, set())`; otherwise
return the computed profit together with the set unchanged. -/
def compute_profit_and_items (w : ℕ → ℕ) (p : ℕ → ℕ → ℤ) (c : ℕ) (s : Finset ℕ) :
    Option ℤ × Finset ℕ :=
  if c < wsum w s then (none, ∅) else (some (validatorProfit p s), s)

/-- First index `r ∈ [0, c]` attaining the maximum of `f` there: the shared
semantics of Python `dp[n].index(max(dp[n]))` and `np.argmax(dp)` (first
occurrence wins; a later index replaces the incumbent only when strictly
greater). -/
def bestIdx {α : Type*} [LinearOrder α] (f : ℕ → α) : ℕ → ℕ
  | 0 => 0
  | c + 1 => if f (bestIdx f c) < f (c + 1) then c + 1 else bestIdx f c

/-- src/algorithms.py lines 19-48, the exact engine's DP cell: `cdpCell w p k r`
is the pair `(dp[k][r], tracker[k][r])`.  Row `0` is all zeros with empty
trackers; row `k+1` first copies the exclude candidate `dp[k][r]` and then,
when item `k` fits (`r ≥ weights[k]`), overwrites it with the include
candidate exactly when that candidate is strictly greater. -/
def cdpCell (w : ℕ → ℕ) (p : ℕ → ℕ → ℤ) : ℕ → ℕ → ℤ × Finset ℕ
  | 0, _ => (0, ∅)
  | k + 1, r =>
    if w k ≤ r then
      if (cdpCell w p k r).1 <
          (cdpCell w p k (r - w k)).1 + p k k + ∑ j ∈ (cdpCell w p k (r - w k)).2, p k j then
        ((cdpCell w p k (r - w k)).1 + p k k + ∑ j ∈ (cdpCell w p k (r - w k)).2, p k j,
          insert k (cdpCell w p k (r - w k)).2)
      else cdpCell w p k r
    else cdpCell w p k r

/-- src/algorithms.py lines 16-55, `classical_dp_qkp`: populate the table, take
`max_profit = max(dp[n])`, `max_capacity = dp[n].index(max_profit)` (first
index attaining the maximum) and return the tracker there with the profit. -/
def classical_dp_qkp (n : ℕ) (w : ℕ → ℕ) (p : ℕ → ℕ → ℤ) (c : ℕ) : Finset ℕ × ℤ :=
  ((cdpCell w p n (bestIdx (fun r => (cdpCell w p n r).1) c)).2,
    (cdpCell w p n (bestIdx (fun r => (cdpCell w p n r).1) c)).1)

/-- The shared heuristic transition (src/algorithms.py lines 82-97 and
123-137): given the incumbent cell `ex` and the source cell `pr` of the include
move for item `k`, skip if the source is infeasible, otherwise overwrite the
incumbent when the include profit is strictly greater, or on an exact tie when
the source witness plus item `k` has strictly more elements. -/
def heurStep (p : ℕ → ℕ → ℤ) (k : ℕ) (ex pr : WithBot ℤ × Finset ℕ) :
    WithBot ℤ × Finset ℕ :=
  if pr.1 = ⊥ then ex
  else
    if ex.1 < ((pr.1.unbot' 0 + p k k + ∑ j ∈ pr.2, p k j : ℤ) : WithBot ℤ) ∨
        (((pr.1.unbot' 0 + p k k + ∑ j ∈ pr.2, p k j : ℤ) : WithBot ℤ) = ex.1 ∧
          ex.2.card < pr.2.card + 1) then
      (((pr.1.unbot' 0 + p k k + ∑ j ∈ pr.2, p k j : ℤ) : WithBot ℤ), insert k pr.2)
    else ex

/-- src/algorithms.py lines 70-97, heuristic engine A's DP cell:
`h2Cell w p k r = (dp[k][r], selected_items[k][r])`.  Row `0` is `0` at `r = 0`
and the `-inf` sentinel elsewhere; row `k+1` copies the exclude candidate and
then applies the include transition for item `k` when it fits. -/
def h2Cell (w : ℕ → ℕ) (p : ℕ → ℕ → ℤ) : ℕ → ℕ → WithBot ℤ × Finset ℕ
  | 0, r => (if r = 0 then (0 : WithBot ℤ) else ⊥, ∅)
  | k + 1, r =>
    if w k ≤ r then heurStep p k (h2Cell w p k r) (h2Cell w p k (r - w k))
    else h2Cell w p k r

/-- src/algorithms.py lines 57-102, `dp_heuristic_algo2`: populate the table,
take `best_r = np.argmax(dp[n])` and return the witness there with
`dp[n][best_r]`. -/
def dp_heuristic_algo2 (n : ℕ) (w : ℕ → ℕ) (p : ℕ → ℕ → ℤ) (c : ℕ) :
    Finset ℕ × WithBot ℤ :=
  ((h2Cell w p n (bestIdx (fun r => (h2Cell w p n r).1) c)).2,
    (h2Cell w p n (bestIdx (fun r => (h2Cell w p n r).1) c)).1)

/-- The list `[c, c-1, ..., c-len+1]`: `downFrom c len` enumerates the indices
of Python's `range(capacity, weights[k]-1, -1)` (with `len = c + 1 - weights[k]`,
so the run stops at `weights[k]`, or is empty when the item does not fit). -/
def downFrom (c : ℕ) : ℕ → List ℕ
  | 0 => []
  | l + 1 => c :: downFrom (c - 1) l

/-- src/algorithms.py lines 123-137, one in-place update of the rolling engine
at capacity `r` for item `k` of weight `wk`: read `dp[r - wk]` (still
unmodified in this pass thanks to the descending order), apply the shared
heuristic transition against the current `dp[r]`, and write cell `r`. -/
def h3Update (p : ℕ → ℕ → ℤ) (k wk : ℕ) (st : ℕ → WithBot ℤ × Finset ℕ) (r : ℕ) :
    ℕ → WithBot ℤ × Finset ℕ :=
  Function.update st r (heurStep p k (st r) (st (r - wk)))

/-- src/algorithms.py lines 117-137: the rolling array after the first `m`
item passes.  `h3State w p c 0` is the base state (`dp[0] = 0`, `-inf`
elsewhere, all witnesses empty); pass `m` updates `r` descending from `c`
down to `weights[m]`. -/
def h3State (w : ℕ → ℕ) (p : ℕ → ℕ → ℤ) (c : ℕ) : ℕ → ℕ → WithBot ℤ × Finset ℕ
  | 0 => fun r => (if r = 0 then (0 : WithBot ℤ) else ⊥, ∅)
  | m + 1 => (downFrom c (c + 1 - w m)).foldl (h3Update p m (w m)) (h3State w p c m)

/-- src/algorithms.py lines 104-142, `dp_heuristic_algo3`: run all `n` item
passes, take `np.max(dp)` and `np.argmax(dp)` and return the witness at the
argmax with the maximum profit. -/
def dp_heuristic_algo3 (n : ℕ) (w : ℕ → ℕ) (p : ℕ → ℕ → ℤ) (c : ℕ) :
    Finset ℕ × WithBot ℤ :=
  ((h3State w p c n (bestIdx (fun r => (h3State w p c n r).1) c)).2,
    (h3State w p c n (bestIdx (fun r => (h3State w p c n r).1) c)).1)

/-- Weight list as an indexing function (all engine accesses are in range). -/
def listW (l : List ℕ) : ℕ → ℕ := fun i => l.getD i 0

/-- Profit matrix as an indexing function (all engine accesses are in range). -/
def listP (m : List (List ℤ)) : ℕ → ℕ → ℤ := fun i j => (m.getD i []).getD j 0

/-- Cell shape invariant shared by the two heuristic engines: a cell is either
the untouched infeasible sentinel with an empty witness, or a feasible value
that equals the accumulated profit of its witness, whose items all come from
the first `m` items and whose total weight fits in `r`. -/
def goodCell (w : ℕ → ℕ) (p : ℕ → ℕ → ℤ) (m r : ℕ) (cell : WithBot ℤ × Finset ℕ) :
    Prop :=
  (cell.1 = ⊥ ∧ cell.2 = ∅) ∨
    (∃ q : ℤ, cell.1 = (q : WithBot ℤ) ∧ cell.2 ⊆ Finset.range m ∧
      wsum w cell.2 ≤ r ∧ q = qkpProfit p cell.2)

/-- List indexing with Python semantics: an out-of-range subscript raises
(`Except.error`), an in-range one returns the element. -/
def getE {α : Type} (l : List α) (i : ℕ) : Except Unit α :=
  match l[i]? with
  | some a => Except.ok a
  | none => Except.error ()

/-- The interaction-profit loop `for j in witness: profit += row[j]` over a
matrix row kept as a genuine list, iterating the set in increasing order. -/
def interE (row : List ℤ) (s : Finset ℕ) : Except Unit ℤ :=
  (s.sort (· ≤ ·)).foldlM (fun acc j => do
    let v ← getE row j
    pure (acc + v)) 0

/-- The exact engine's cell over list-valued inputs, with every subscript
explicit, so a weight count exceeding the matrix dimension surfaces exactly
where Python would raise `IndexError` (src/algorithms.py lines 24-48). -/
def cdpCellE (w : List ℕ) (pm : List (List ℤ)) : ℕ → ℕ → Except Unit (ℤ × Finset ℕ)
  | 0, _ => Except.ok (0, ∅)
  | k + 1, r => do
    let ex ← cdpCellE w pm k r
    let wk ← getE w k
    if wk ≤ r then do
      let pr ← cdpCellE w pm k (r - wk)
      let row ← getE pm k
      let pkk ← getE row k
      let inter ← interE row pr.2
      if ex.1 < pr.1 + pkk + inter then pure (pr.1 + pkk + inter, insert k pr.2)
      else pure ex
    else pure ex

/-- `classical_dp_qkp` over list-valued inputs (src/algorithms.py lines 16-55):
note `n = len(weights)` regardless of the matrix dimension, and no validation
of any kind before the table is populated. -/
def classical_dp_qkpE (w : List ℕ) (pm : List (List ℤ)) (c : ℕ) :
    Except Unit (Finset ℕ × ℤ) := do
  let cells ← (List.range (c + 1)).mapM (cdpCellE w pm w.length)
  let b := bestIdx (fun r => (cells.getD r (0, ∅)).1) c
  pure ((cells.getD b (0, ∅)).2, (cells.getD b (0, ∅)).1)

/-- The shared heuristic transition over a list-valued matrix. -/
def heurStepE (pm : List (List ℤ)) (k : ℕ) (ex pr : WithBot ℤ × Finset ℕ) :
    Except Unit (WithBot ℤ × Finset ℕ) :=
  if pr.1 = ⊥ then pure ex
  else do
    let row ← getE pm k
    let pkk ← getE row k
    let inter ← interE row pr.2
    if ex.1 < ((pr.1.unbot' 0 + pkk + inter : ℤ) : WithBot ℤ) ∨
        (((pr.1.unbot' 0 + pkk + inter : ℤ) : WithBot ℤ) = ex.1 ∧
          ex.2.card < pr.2.card + 1) then
      pure (((pr.1.unbot' 0 + pkk + inter : ℤ) : WithBot ℤ), insert k pr.2)
    else pure ex

/-- Heuristic engine A's cell over list-valued inputs
(src/algorithms.py lines 70-97). -/
def h2CellE (w : List ℕ) (pm : List (List ℤ)) :
    ℕ → ℕ → Except Unit (WithBot ℤ × Finset ℕ)
  | 0, r => Except.ok (if r = 0 then (0 : WithBot ℤ) else ⊥, ∅)
  | k + 1, r => do
    let ex ← h2CellE w pm k r
    let wk ← getE w k
    if wk ≤ r then do
      let pr ← h2CellE w pm k (r - wk)
      heurStepE pm k ex pr
    else pure ex

/-- `dp_heuristic_algo2` over list-valued inputs
(src/algorithms.py lines 57-102). -/
def dp_heuristic_algo2E (w : List ℕ) (pm : List (List ℤ)) (c : ℕ) :
    Except Unit (Finset ℕ × WithBot ℤ) := do
  let cells ← (List.range (c + 1)).mapM (h2CellE w pm w.length)
  let b := bestIdx (fun r => (cells.getD r (⊥, ∅)).1) c
  pure ((cells.getD b (⊥, ∅)).2, (cells.getD b (⊥, ∅)).1)

/-- One in-place rolling update over list-valued inputs
(src/algorithms.py lines 123-137). -/
def h3UpdateE (pm : List (List ℤ)) (k wk : ℕ) (st : ℕ → WithBot ℤ × Finset ℕ)
    (r : ℕ) : Except Unit (ℕ → WithBot ℤ × Finset ℕ) := do
  let cell ← heurStepE pm k (st r) (st (r - wk))
  pure (Function.update st r cell)

/-- `dp_heuristic_algo3` over list-valued inputs
(src/algorithms.py lines 104-142). -/
def dp_heuristic_algo3E (w : List ℕ) (pm : List (List ℤ)) (c : ℕ) :
    Except Unit (Finset ℕ × WithBot ℤ) := do
  let final ← (List.range w.length).foldlM (fun st k => do
    let wk ← getE w k
    (downFrom c (c + 1 - wk)).foldlM (h3UpdateE pm k wk) st)
    (fun r => (if r = 0 then (0 : WithBot ℤ) else ⊥, ∅))
  let b := bestIdx (fun r => (final r).1) c
  pure ((final b).2, (final b).1)

/-- Spec-side transcription of §4.1 of the specification: the cell value is
"the strictly larger of the two candidates" (a `max`), and "on exact tie the
exclude branch wins" for the witness. -/
def specCell (w : ℕ → ℕ) (p : ℕ → ℕ → ℤ) : ℕ → ℕ → ℤ × Finset ℕ
  | 0, _ => (0, ∅)
  | k + 1, r =>
    if w k ≤ r then
      (max (specCell w p k r).1
          ((specCell w p k (r - w k)).1 + p k k +
            ∑ j ∈ (specCell w p k (r - w k)).2, p k j),
        if (specCell w p k r).1 <
            (specCell w p k (r - w k)).1 + p k k +
              ∑ j ∈ (specCell w p k (r - w k)).2, p k j then
          insert k (specCell w p k (r - w k)).2
        else (specCell w p k r).2)
    else specCell w p k r

/-- The all-zero profit matrix (used to exhibit exact ties). -/
def zeroMatrix : ℕ → ℕ → ℤ := fun _ _ => 0

/-- A concrete rolling-array state with a tie between the cell at capacity 1
(value 0, witness containing item 0) and the include move of item 1 sourced at
capacity 0 (value 0, empty witness). -/
def tieState : ℕ → WithBot ℤ × Finset ℕ := fun r =>
  if r = 0 then (((0 : ℤ) : WithBot ℤ), ∅)
  else if r = 1 then (((0 : ℤ) : WithBot ℤ), {0})
  else (⊥, ∅)

lemma bestIdx_le {α : Type*} [LinearOrder α] (f : ℕ → α) : ∀ c, bestIdx f c ≤ c
  | 0 => le_refl 0
  | c + 1 => by
    simp only [bestIdx]
    split
    · exact le_refl _
    · exact le_trans (bestIdx_le f c) (Nat.le_succ c)

lemma le_f_bestIdx {α : Type*} [LinearOrder α] (f : ℕ → α) :
    ∀ c r, r ≤ c → f r ≤ f (bestIdx f c)
  | 0, r, hr => by
    have : r = 0 := Nat.le_zero.mp hr
    subst this
    exact le_refl _
  | c + 1, r, hr => by
    by_cases h : f (bestIdx f c) < f (c + 1)
    · simp only [bestIdx, if_pos h]
      rcases Nat.lt_succ_iff_lt_or_eq.mp (Nat.lt_succ_of_le hr) with h' | h'
      · exact le_trans (le_f_bestIdx f c r (Nat.lt_succ_iff.mp h')) (le_of_lt h)
      · exact le_of_eq (congrArg f h')
    · simp only [bestIdx, if_neg h]
      rcases Nat.lt_succ_iff_lt_or_eq.mp (Nat.lt_succ_of_le hr) with h' | h'
      · exact le_f_bestIdx f c r (Nat.lt_succ_iff.mp h')
      · rw [h']
        exact not_lt.mp h

lemma f_lt_of_lt_bestIdx {α : Type*} [LinearOrder α] (f : ℕ → α) :
    ∀ c r, r < bestIdx f c → f r < f (bestIdx f c)
  | 0, r, hr => absurd hr (by simp [bestIdx])
  | c + 1, r, hr => by
    by_cases h : f (bestIdx f c) < f (c + 1)
    · simp only [bestIdx, if_pos h] at hr ⊢
      exact lt_of_le_of_lt (le_f_bestIdx f c r (Nat.lt_succ_iff.mp hr)) h
    · simp only [bestIdx, if_neg h] at hr ⊢
      exact f_lt_of_lt_bestIdx f c r hr

lemma bestIdx_eq_zero {α : Type*} [LinearOrder α] (f : ℕ → α) :
    ∀ c, (∀ r, r ≤ c → f r ≤ f 0) → bestIdx f c = 0
  | 0, _ => rfl
  | c + 1, hf => by
    have ih : bestIdx f c = 0 := bestIdx_eq_zero f c fun r hr => hf r (le_trans hr (Nat.le_succ c))
    simp only [bestIdx, ih]
    rw [if_neg (not_lt.mpr (hf (c + 1) (le_refl _)))]

lemma wsum_insert (w : ℕ → ℕ) (k : ℕ) (s : Finset ℕ) (h : k ∉ s) :
    wsum w (insert k s) = w k + wsum w s :=
  Finset.sum_insert h

lemma qkpProfit_insert (p : ℕ → ℕ → ℤ) (k : ℕ) (s : Finset ℕ)
    (h : ∀ j ∈ s, j < k) :
    qkpProfit p (insert k s) = qkpProfit p s + p k k + ∑ j ∈ s, p k j := by
  have hk : k ∉ s := fun hmem => lt_irrefl k (h k hmem)
  have h1 : ∑ i ∈ insert k s, p i i = p k k + ∑ i ∈ s, p i i :=
    Finset.sum_insert hk
  have hfk : (insert k s).filter (fun j => j < k) = s := by
    rw [Finset.filter_insert, if_neg (lt_irrefl k)]
    exact Finset.filter_true_of_mem h
  have h2 : ∑ i ∈ insert k s, ∑ j ∈ (insert k s).filter (fun j => j < i), p i j
      = (∑ j ∈ s, p k j) + ∑ i ∈ s, ∑ j ∈ s.filter (fun j => j < i), p i j := by
    rw [Finset.sum_insert hk, hfk]
    congr 1
    refine Finset.sum_congr rfl fun i hi => ?_
    rw [Finset.filter_insert, if_neg (not_lt.mpr (le_of_lt (h i hi)))]
  unfold qkpProfit
  rw [h1, h2]
  ring

lemma validatorProfit_eq_qkpProfit (p : ℕ → ℕ → ℤ) (s : Finset ℕ)
    (hsym : ∀ i j, p i j = p j i) : validatorProfit p s = qkpProfit p s := by
  unfold validatorProfit qkpProfit
  congr 1
  calc ∑ i ∈ s, ∑ j ∈ s.filter (fun j => i < j), p i j
      = ∑ i ∈ s, ∑ j ∈ s, if i < j then p i j else 0 :=
        Finset.sum_congr rfl fun i _ => Finset.sum_filter _ _
    _ = ∑ j ∈ s, ∑ i ∈ s, if i < j then p i j else 0 := Finset.sum_comm
    _ = ∑ j ∈ s, ∑ i ∈ s.filter (fun i => i < j), p j i := by
        refine Finset.sum_congr rfl fun j _ => ?_
        rw [Finset.sum_filter]
        refine Finset.sum_congr rfl fun i _ => ?_
        by_cases h : i < j
        · rw [if_pos h, if_pos h, hsym i j]
        · rw [if_neg h, if_neg h]
    _ = ∑ i ∈ s, ∑ j ∈ s.filter (fun j => j < i), p i j := rfl

lemma validatorProfit_offDiag (p : ℕ → ℕ → ℤ) (s : Finset ℕ) :
    validatorProfit p s =
      ∑ i ∈ s, p i i + ∑ q ∈ (s ×ˢ s).filter (fun q => q.1 < q.2), p q.1 q.2 := by
  unfold validatorProfit
  congr 1
  rw [Finset.sum_filter, Finset.sum_product]
  refine Finset.sum_congr rfl fun i _ => ?_
  rw [Finset.sum_filter]

lemma cdpCell_inv (w : ℕ → ℕ) (p : ℕ → ℕ → ℤ) : ∀ k r,
    (cdpCell w p k r).2 ⊆ Finset.range k ∧
    wsum w (cdpCell w p k r).2 ≤ r ∧
    (cdpCell w p k r).1 = qkpProfit p (cdpCell w p k r).2 ∧
    0 ≤ (cdpCell w p k r).1
  | 0, r => by
    refine ⟨?_, ?_, ?_, ?_⟩ <;> simp [cdpCell, wsum, qkpProfit]
  | k + 1, r => by
    obtain ⟨hs, hw, hv, h0⟩ := cdpCell_inv w p k r
    by_cases hwk : w k ≤ r
    · obtain ⟨hs', hw', hv', h0'⟩ := cdpCell_inv w p k (r - w k)
      by_cases hlt : (cdpCell w p k r).1 <
          (cdpCell w p k (r - w k)).1 + p k k + ∑ j ∈ (cdpCell w p k (r - w k)).2, p k j
      · have heq : cdpCell w p (k + 1) r =
            ((cdpCell w p k (r - w k)).1 + p k k +
                ∑ j ∈ (cdpCell w p k (r - w k)).2, p k j,
              insert k (cdpCell w p k (r - w k)).2) := by
          simp only [cdpCell, if_pos hwk, if_pos hlt]
        have hlt' : ∀ j ∈ (cdpCell w p k (r - w k)).2, j < k := fun j hj =>
          Finset.mem_range.mp (hs' hj)
        have hk : k ∉ (cdpCell w p k (r - w k)).2 := fun hmem =>
          lt_irrefl k (hlt' k hmem)
        rw [heq]
        refine ⟨?_, ?_, ?_, ?_⟩
        · exact Finset.insert_subset (Finset.mem_range.mpr (Nat.lt_succ_self k))
            (hs'.trans (Finset.range_subset.mpr (Nat.le_succ k)))
        · rw [wsum_insert w k _ hk]
          have hw'' : wsum w (cdpCell w p k (r - w k)).2 ≤ r - w k := hw'
          omega
        · rw [qkpProfit_insert p k _ hlt', ← hv']
        · exact le_trans h0 (le_of_lt hlt)
      · have heq : cdpCell w p (k + 1) r = cdpCell w p k r := by
          simp only [cdpCell, if_pos hwk, if_neg hlt]
        rw [heq]
        exact ⟨hs.trans (Finset.range_subset.mpr (Nat.le_succ k)), hw, hv, h0⟩
    · have heq : cdpCell w p (k + 1) r = cdpCell w p k r := by
        simp only [cdpCell, if_neg hwk]
      rw [heq]
      exact ⟨hs.trans (Finset.range_subset.mpr (Nat.le_succ k)), hw, hv, h0⟩

lemma cdpCell_eq_specCell (w : ℕ → ℕ) (p : ℕ → ℕ → ℤ) :
    ∀ k r, cdpCell w p k r = specCell w p k r
  | 0, _ => rfl
  | k + 1, r => by
    have ih1 := cdpCell_eq_specCell w p k r
    have ih2 := cdpCell_eq_specCell w p k (r - w k)
    by_cases hwk : w k ≤ r
    · by_cases hlt : (cdpCell w p k r).1 <
          (cdpCell w p k (r - w k)).1 + p k k + ∑ j ∈ (cdpCell w p k (r - w k)).2, p k j
      · have h1 : cdpCell w p (k + 1) r =
            ((cdpCell w p k (r - w k)).1 + p k k +
                ∑ j ∈ (cdpCell w p k (r - w k)).2, p k j,
              insert k (cdpCell w p k (r - w k)).2) := by
          simp only [cdpCell, if_pos hwk, if_pos hlt]
        have h2 : specCell w p (k + 1) r =
            (max (specCell w p k r).1
                ((specCell w p k (r - w k)).1 + p k k +
                  ∑ j ∈ (specCell w p k (r - w k)).2, p k j),
              if (specCell w p k r).1 <
                  (specCell w p k (r - w k)).1 + p k k +
                    ∑ j ∈ (specCell w p k (r - w k)).2, p k j then
                insert k (specCell w p k (r - w k)).2
              else (specCell w p k r).2) := by
          simp only [specCell, if_pos hwk]
        rw [h1, h2, ← ih1, ← ih2, max_eq_right (le_of_lt hlt), if_pos hlt]
      · have h1 : cdpCell w p (k + 1) r = cdpCell w p k r := by
          simp only [cdpCell, if_pos hwk, if_neg hlt]
        have h2 : specCell w p (k + 1) r =
            (max (specCell w p k r).1
                ((specCell w p k (r - w k)).1 + p k k +
                  ∑ j ∈ (specCell w p k (r - w k)).2, p k j),
              if (specCell w p k r).1 <
                  (specCell w p k (r - w k)).1 + p k k +
                    ∑ j ∈ (specCell w p k (r - w k)).2, p k j then
                insert k (specCell w p k (r - w k)).2
              else (specCell w p k r).2) := by
          simp only [specCell, if_pos hwk]
        rw [h1, h2, ← ih1, ← ih2, max_eq_left (not_lt.mp hlt), if_neg hlt]
    · have h1 : cdpCell w p (k + 1) r = cdpCell w p k r := by
        simp only [cdpCell, if_neg hwk]
      have h2 : specCell w p (k + 1) r = specCell w p k r := by
        simp only [specCell, if_neg hwk]
      rw [h1, h2, ih1]

lemma heurStep_bot (p : ℕ → ℕ → ℤ) (k : ℕ) (ex pr : WithBot ℤ × Finset ℕ)
    (h : pr.1 = ⊥) : heurStep p k ex pr = ex := by
  simp [heurStep, h]

lemma heurStep_coe (p : ℕ → ℕ → ℤ) (k : ℕ) (ex pr : WithBot ℤ × Finset ℕ)
    (q : ℤ) (h : pr.1 = (q : WithBot ℤ)) :
    heurStep p k ex pr =
      if ex.1 < ((q + p k k + ∑ j ∈ pr.2, p k j : ℤ) : WithBot ℤ) ∨
          (((q + p k k + ∑ j ∈ pr.2, p k j : ℤ) : WithBot ℤ) = ex.1 ∧
            ex.2.card < pr.2.card + 1) then
        (((q + p k k + ∑ j ∈ pr.2, p k j : ℤ) : WithBot ℤ), insert k pr.2)
      else ex := by
  simp only [heurStep, h, WithBot.coe_ne_bot, if_false, WithBot.unbot'_coe]

lemma heurStep_fst_le (p : ℕ → ℕ → ℤ) (k : ℕ) (ex pr : WithBot ℤ × Finset ℕ) :
    ex.1 ≤ (heurStep p k ex pr).1 := by
  unfold heurStep
  split
  · exact le_refl _
  · split
    · rename_i hcond
      rcases hcond with h | h
      · exact le_of_lt h
      · exact le_of_eq h.1.symm
    · exact le_refl _

lemma goodCell_mono (w : ℕ → ℕ) (p : ℕ → ℕ → ℤ) {m m' r : ℕ} (h : m ≤ m')
    {cell : WithBot ℤ × Finset ℕ} (hc : goodCell w p m r cell) :
    goodCell w p m' r cell := by
  rcases hc with h1 | ⟨q, hq, hsub, hws, hqp⟩
  · exact Or.inl h1
  · exact Or.inr ⟨q, hq, hsub.trans (Finset.range_subset.mpr h), hws, hqp⟩

lemma heurStep_goodCell (w : ℕ → ℕ) (p : ℕ → ℕ → ℤ) (k r : ℕ)
    (ex pr : WithBot ℤ × Finset ℕ) (hwk : w k ≤ r)
    (hex : goodCell w p (k + 1) r ex) (hpr : goodCell w p k (r - w k) pr) :
    goodCell w p (k + 1) r (heurStep p k ex pr) := by
  rcases hpr with ⟨hb, _⟩ | ⟨q, hq, hsub, hws, hqp⟩
  · rw [heurStep_bot p k ex pr hb]
    exact hex
  · rw [heurStep_coe p k ex pr q hq]
    split
    · right
      have hlt' : ∀ j ∈ pr.2, j < k := fun j hj => Finset.mem_range.mp (hsub hj)
      have hk : k ∉ pr.2 := fun hm => lt_irrefl k (hlt' k hm)
      refine ⟨q + p k k + ∑ j ∈ pr.2, p k j, rfl, ?_, ?_, ?_⟩
      · exact Finset.insert_subset (Finset.mem_range.mpr (Nat.lt_succ_self k))
          (hsub.trans (Finset.range_subset.mpr (Nat.le_succ k)))
      · show wsum w (insert k pr.2) ≤ r
        rw [wsum_insert w k pr.2 hk]
        omega
      · rw [qkpProfit_insert p k pr.2 hlt', ← hqp]
    · exact hex

lemma h2Cell_inv (w : ℕ → ℕ) (p : ℕ → ℕ → ℤ) :
    ∀ k r, goodCell w p k r (h2Cell w p k r)
  | 0, r => by
    by_cases h : r = 0
    · right
      refine ⟨0, ?_, ?_, ?_, ?_⟩ <;> simp [h2Cell, h, wsum, qkpProfit]
    · left
      constructor <;> simp [h2Cell, h]
  | k + 1, r => by
    by_cases hwk : w k ≤ r
    · have heq : h2Cell w p (k + 1) r =
          heurStep p k (h2Cell w p k r) (h2Cell w p k (r - w k)) := by
        simp only [h2Cell, if_pos hwk]
      rw [heq]
      exact heurStep_goodCell w p k r _ _ hwk
        (goodCell_mono w p (Nat.le_succ k) (h2Cell_inv w p k r))
        (h2Cell_inv w p k (r - w k))
    · have heq : h2Cell w p (k + 1) r = h2Cell w p k r := by
        simp only [h2Cell, if_neg hwk]
      rw [heq]
      exact goodCell_mono w p (Nat.le_succ k) (h2Cell_inv w p k r)

lemma h2Cell_fst_le_succ (w : ℕ → ℕ) (p : ℕ → ℕ → ℤ) (k r : ℕ) :
    (h2Cell w p k r).1 ≤ (h2Cell w p (k + 1) r).1 := by
  by_cases hwk : w k ≤ r
  · have heq : h2Cell w p (k + 1) r =
        heurStep p k (h2Cell w p k r) (h2Cell w p k (r - w k)) := by
      simp only [h2Cell, if_pos hwk]
    rw [heq]
    exact heurStep_fst_le p k _ _
  · have heq : h2Cell w p (k + 1) r = h2Cell w p k r := by
      simp only [h2Cell, if_neg hwk]
    rw [heq]

lemma h2Cell_zero_nonneg (w : ℕ → ℕ) (p : ℕ → ℕ → ℤ) :
    ∀ k, (0 : WithBot ℤ) ≤ (h2Cell w p k 0).1
  | 0 => by simp [h2Cell]
  | k + 1 => le_trans (h2Cell_zero_nonneg w p k) (h2Cell_fst_le_succ w p k 0)

lemma mem_downFrom : ∀ (l c x : ℕ), l ≤ c + 1 → x ∈ downFrom c l →
    c + 1 ≤ x + l ∧ x ≤ c
  | 0, _, x, _, hx => absurd hx (List.not_mem_nil x)
  | l + 1, c, x, hl, hx => by
    rcases List.mem_cons.mp hx with rfl | hx'
    · omega
    · rcases Nat.eq_zero_or_pos l with rfl | hl'
      · exact absurd hx' (List.not_mem_nil x)
      · have := mem_downFrom l (c - 1) x (by omega) hx'
        omega

lemma pairwise_downFrom : ∀ (l c : ℕ), l ≤ c + 1 →
    List.Pairwise (fun a b => b < a) (downFrom c l)
  | 0, c, _ => List.Pairwise.nil
  | l + 1, c, hl => by
    show List.Pairwise (fun a b => b < a) (c :: downFrom (c - 1) l)
    refine List.pairwise_cons.mpr ⟨?_, ?_⟩
    · intro x hx
      rcases Nat.eq_zero_or_pos l with rfl | hl'
      · exact absurd hx (List.not_mem_nil x)
      · have := mem_downFrom l (c - 1) x (by omega) hx
        omega
    · rcases Nat.eq_zero_or_pos l with rfl | hl'
      · exact List.Pairwise.nil
      · exact pairwise_downFrom l (c - 1) (by omega)

lemma h3_fold_goodCell (w : ℕ → ℕ) (p : ℕ → ℕ → ℤ) (k : ℕ) :
    ∀ (L : List ℕ) (st : ℕ → WithBot ℤ × Finset ℕ),
      (∀ x ∈ L, w k ≤ x) →
      List.Pairwise (fun a b => b < a) L →
      (∀ r, goodCell w p (k + 1) r (st r)) →
      (∀ r x, x ∈ L → r ≤ x → goodCell w p k r (st r)) →
      ∀ r, goodCell w p (k + 1) r ((L.foldl (h3Update p k (w k)) st) r)
  | [], _, _, _, h1, _, r => h1 r
  | a :: L, st, hwk, hpw, h1, h2, r => by
    have hwa : w k ≤ a := hwk a (List.mem_cons_self a L)
    have hstep : ∀ r', goodCell w p (k + 1) r' ((h3Update p k (w k) st a) r') := by
      intro r'
      by_cases hr : r' = a
      · subst hr
        have hup : (h3Update p k (w k) st r') r' =
            heurStep p k (st r') (st (r' - w k)) := by
          simp [h3Update]
        rw [hup]
        exact heurStep_goodCell w p k r' (st r') (st (r' - w k)) hwa (h1 r')
          (h2 (r' - w k) r' (List.mem_cons_self r' L) (Nat.sub_le r' (w k)))
      · have hup : (h3Update p k (w k) st a) r' = st r' := by
          simp [h3Update, Function.update_noteq hr]
        rw [hup]
        exact h1 r'
    refine h3_fold_goodCell w p k L (h3Update p k (w k) st a)
      (fun x hx => hwk x (List.mem_cons_of_mem a hx)) hpw.of_cons hstep ?_ r
    intro r' x hx hr'
    have hxa : x < a := (List.pairwise_cons.mp hpw).1 x hx
    have hne : r' ≠ a := by omega
    have hup : (h3Update p k (w k) st a) r' = st r' := by
      simp [h3Update, Function.update_noteq hne]
    rw [hup]
    exact h2 r' x (List.mem_cons_of_mem a hx) hr'

lemma h3State_inv (w : ℕ → ℕ) (p : ℕ → ℕ → ℤ) (c : ℕ) :
    ∀ m r, goodCell w p m r (h3State w p c m r)
  | 0, r => by
    by_cases h : r = 0
    · right
      refine ⟨0, ?_, ?_, ?_, ?_⟩ <;> simp [h3State, h, wsum, qkpProfit]
    · left
      constructor <;> simp [h3State, h]
  | m + 1, r => by
    have heq : h3State w p c (m + 1) =
        (downFrom c (c + 1 - w m)).foldl (h3Update p m (w m)) (h3State w p c m) := by
      simp only [h3State]
    rw [heq]
    refine h3_fold_goodCell w p m (downFrom c (c + 1 - w m)) (h3State w p c m)
      ?_ (pairwise_downFrom (c + 1 - w m) c (by omega)) ?_ ?_ r
    · intro x hx
      have := mem_downFrom (c + 1 - w m) c x (by omega) hx
      omega
    · exact fun r' => goodCell_mono w p (Nat.le_succ m) (h3State_inv w p c m r')
    · exact fun r' x _ _ => h3State_inv w p c m r'

lemma h3Update_fst_le (p : ℕ → ℕ → ℤ) (k wk : ℕ)
    (st : ℕ → WithBot ℤ × Finset ℕ) (r r' : ℕ) :
    (st r').1 ≤ ((h3Update p k wk st r) r').1 := by
  by_cases h : r' = r
  · subst h
    simp only [h3Update, Function.update_same]
    exact heurStep_fst_le p k _ _
  · simp only [h3Update, Function.update_noteq h]
    exact le_refl _

lemma foldl_h3Update_fst_le (p : ℕ → ℕ → ℤ) (k wk : ℕ) :
    ∀ (L : List ℕ) (st : ℕ → WithBot ℤ × Finset ℕ) (r' : ℕ),
      (st r').1 ≤ ((L.foldl (h3Update p k wk) st) r').1
  | [], _, _ => le_refl _
  | a :: L, st, r' =>
    le_trans (h3Update_fst_le p k wk st a r')
      (foldl_h3Update_fst_le p k wk L (h3Update p k wk st a) r')

lemma h3State_zero_nonneg (w : ℕ → ℕ) (p : ℕ → ℕ → ℤ) (c : ℕ) :
    ∀ m, (0 : WithBot ℤ) ≤ (h3State w p c m 0).1
  | 0 => by simp [h3State]
  | m + 1 => by
    have heq : h3State w p c (m + 1) =
        (downFrom c (c + 1 - w m)).foldl (h3Update p m (w m)) (h3State w p c m) := by
      simp only [h3State]
    rw [heq]
    exact le_trans (h3State_zero_nonneg w p c m)
      (foldl_h3Update_fst_le p m (w m) _ _ 0)

lemma validator_some (w : ℕ → ℕ) (p : ℕ → ℕ → ℤ) (c : ℕ) (s : Finset ℕ) (v : ℤ)
    (hsym : ∀ i j, p i j = p j i) (hws : wsum w s ≤ c) (hv : v = qkpProfit p s) :
    (compute_profit_and_items w p c s).1 = some v := by
  simp only [compute_profit_and_items, if_neg (not_lt.mpr hws)]
  rw [validatorProfit_eq_qkpProfit p s hsym, ← hv]

/-- Claim C1 as stated (engine/validator agreement on every instance) is false:
on the asymmetric profit matrix [[1, 0], [9, 1]] with weights [1, 1] and
capacity 2, the exact engine returns the set containing items 0 and 1 with
profit 11 (it reads the entry 9 of the later item against the earlier one),
while the validator computes profit 2 for that same set (it reads the entry 0
of the pair in increasing order). -/
theorem claim_C1_counterexample :
    classical_dp_qkp 2 (listW [1, 1]) (listP [[1, 0], [9, 1]]) 2 = ({0, 1}, 11) ∧
    (compute_profit_and_items (listW [1, 1]) (listP [[1, 0], [9, 1]]) 2 {0, 1}).1 =
      some 2 :=
  ⟨by decide, by decide⟩

/-- Claim C1 (amended with the data-model symmetry invariant of §3): for every
instance whose profit matrix is symmetric, each of the three engines returns a
selected set whose total weight is at most the capacity and whose
validator-computed profit equals the engine's returned profit. -/
theorem claim_C1_thm (n : ℕ) (w : ℕ → ℕ) (p : ℕ → ℕ → ℤ) (c : ℕ)
    (hsym : ∀ i j, p i j = p j i) :
    (wsum w (classical_dp_qkp n w p c).1 ≤ c ∧
      (compute_profit_and_items w p c (classical_dp_qkp n w p c).1).1 =
        some (classical_dp_qkp n w p c).2) ∧
    (∃ q : ℤ, (dp_heuristic_algo2 n w p c).2 = (q : WithBot ℤ) ∧
      wsum w (dp_heuristic_algo2 n w p c).1 ≤ c ∧
      (compute_profit_and_items w p c (dp_heuristic_algo2 n w p c).1).1 = some q) ∧
    (∃ q : ℤ, (dp_heuristic_algo3 n w p c).2 = (q : WithBot ℤ) ∧
      wsum w (dp_heuristic_algo3 n w p c).1 ≤ c ∧
      (compute_profit_and_items w p c (dp_heuristic_algo3 n w p c).1).1 = some q) := by
  refine ⟨⟨?_, ?_⟩, ?_, ?_⟩
  · obtain ⟨_, hw, _, _⟩ := cdpCell_inv w p n (bestIdx (fun r => (cdpCell w p n r).1) c)
    exact le_trans hw (bestIdx_le _ c)
  · obtain ⟨_, hw, hv, _⟩ := cdpCell_inv w p n (bestIdx (fun r => (cdpCell w p n r).1) c)
    exact validator_some w p c _ _ hsym (le_trans hw (bestIdx_le _ c)) hv
  · have hnn : (0 : WithBot ℤ) ≤
        (h2Cell w p n (bestIdx (fun r => (h2Cell w p n r).1) c)).1 :=
      le_trans (h2Cell_zero_nonneg w p n)
        (le_f_bestIdx (fun r => (h2Cell w p n r).1) c 0 (Nat.zero_le c))
    rcases h2Cell_inv w p n (bestIdx (fun r => (h2Cell w p n r).1) c) with
      ⟨hb, _⟩ | ⟨q, hq, _, hws, hqp⟩
    · rw [hb] at hnn
      have h0 : ((0 : ℤ) : WithBot ℤ) ≤ ⊥ := by rw [WithBot.coe_zero]; exact hnn
      exact absurd h0 (WithBot.not_coe_le_bot 0)
    · exact ⟨q, hq, le_trans hws (bestIdx_le _ c),
        validator_some w p c _ q hsym (le_trans hws (bestIdx_le _ c)) hqp⟩
  · have hnn : (0 : WithBot ℤ) ≤
        (h3State w p c n (bestIdx (fun r => (h3State w p c n r).1) c)).1 :=
      le_trans (h3State_zero_nonneg w p c n)
        (le_f_bestIdx (fun r => (h3State w p c n r).1) c 0 (Nat.zero_le c))
    rcases h3State_inv w p c n (bestIdx (fun r => (h3State w p c n r).1) c) with
      ⟨hb, _⟩ | ⟨q, hq, _, hws, hqp⟩
    · rw [hb] at hnn
      have h0 : ((0 : ℤ) : WithBot ℤ) ≤ ⊥ := by rw [WithBot.coe_zero]; exact hnn
      exact absurd h0 (WithBot.not_coe_le_bot 0)
    · exact ⟨q, hq, le_trans hws (bestIdx_le _ c),
        validator_some w p c _ q hsym (le_trans hws (bestIdx_le _ c)) hqp⟩

/-- Witness for claim C1: the amended theorem applied to the concrete symmetric
instance with weights [3, 4], profit matrix p i j = i*j + i + j and capacity 5. -/
theorem claim_C1_witness :
    (wsum (listW [3, 4])
        (classical_dp_qkp 2 (listW [3, 4])
          (fun i j => ((i : ℤ) * j + i + j)) 5).1 ≤ 5 ∧
      (compute_profit_and_items (listW [3, 4]) (fun i j => ((i : ℤ) * j + i + j)) 5
          (classical_dp_qkp 2 (listW [3, 4])
            (fun i j => ((i : ℤ) * j + i + j)) 5).1).1 =
        some (classical_dp_qkp 2 (listW [3, 4])
          (fun i j => ((i : ℤ) * j + i + j)) 5).2) ∧
    (∃ q : ℤ, (dp_heuristic_algo2 2 (listW [3, 4])
        (fun i j => ((i : ℤ) * j + i + j)) 5).2 = (q : WithBot ℤ) ∧
      wsum (listW [3, 4]) (dp_heuristic_algo2 2 (listW [3, 4])
        (fun i j => ((i : ℤ) * j + i + j)) 5).1 ≤ 5 ∧
      (compute_profit_and_items (listW [3, 4]) (fun i j => ((i : ℤ) * j + i + j)) 5
          (dp_heuristic_algo2 2 (listW [3, 4])
            (fun i j => ((i : ℤ) * j + i + j)) 5).1).1 = some q) ∧
    (∃ q : ℤ, (dp_heuristic_algo3 2 (listW [3, 4])
        (fun i j => ((i : ℤ) * j + i + j)) 5).2 = (q : WithBot ℤ) ∧
      wsum (listW [3, 4]) (dp_heuristic_algo3 2 (listW [3, 4])
        (fun i j => ((i : ℤ) * j + i + j)) 5).1 ≤ 5 ∧
      (compute_profit_and_items (listW [3, 4]) (fun i j => ((i : ℤ) * j + i + j)) 5
          (dp_heuristic_algo3 2 (listW [3, 4])
            (fun i j => ((i : ℤ) * j + i + j)) 5).1).1 = some q) :=
  claim_C1_thm 2 (listW [3, 4]) (fun i j => ((i : ℤ) * j + i + j)) 5
    (fun i j => by ring)

/-- Claim C2: the exact engine implements exactly the recurrence of §4.1 — the
base row is zero with empty witnesses, each cell is the strictly larger of the
exclude and include candidates with the exclude branch winning ties (this is
the equality with the spec-side `specCell`), the returned profit is the
maximum of the final row over capacities 0..c, attained at an index `b`, and
the returned set is the witness at the smallest such index (all indices below
`b` carry strictly smaller values). -/
theorem claim_C2_thm (n : ℕ) (w : ℕ → ℕ) (p : ℕ → ℕ → ℤ) (c : ℕ) :
    (∀ k r, cdpCell w p k r = specCell w p k r) ∧
    ∃ b, b ≤ c ∧
      classical_dp_qkp n w p c = ((cdpCell w p n b).2, (cdpCell w p n b).1) ∧
      (∀ r, r ≤ c → (cdpCell w p n r).1 ≤ (cdpCell w p n b).1) ∧
      (∀ r, r < b → (cdpCell w p n r).1 < (cdpCell w p n b).1) :=
  ⟨cdpCell_eq_specCell w p, bestIdx (fun r => (cdpCell w p n r).1) c,
    bestIdx_le _ c, rfl,
    fun r hr => le_f_bestIdx (fun r => (cdpCell w p n r).1) c r hr,
    fun r hr => f_lt_of_lt_bestIdx (fun r => (cdpCell w p n r).1) c r hr⟩

/-- Witness for claim C2: the recurrence/extraction theorem applied to the
repository's first test scenario (weights [3, 4, 5], capacity 7). -/
theorem claim_C2_witness :
    cdpCell (listW [3, 4, 5]) (listP [[10, 2, 3], [2, 5, 4], [3, 4, 7]]) 3 7 =
      specCell (listW [3, 4, 5]) (listP [[10, 2, 3], [2, 5, 4], [3, 4, 7]]) 3 7 ∧
    ∃ b, b ≤ 7 ∧
      classical_dp_qkp 3 (listW [3, 4, 5])
          (listP [[10, 2, 3], [2, 5, 4], [3, 4, 7]]) 7 =
        ((cdpCell (listW [3, 4, 5]) (listP [[10, 2, 3], [2, 5, 4], [3, 4, 7]]) 3 b).2,
          (cdpCell (listW [3, 4, 5]) (listP [[10, 2, 3], [2, 5, 4], [3, 4, 7]]) 3 b).1) ∧
      (∀ r, r ≤ 7 →
        (cdpCell (listW [3, 4, 5]) (listP [[10, 2, 3], [2, 5, 4], [3, 4, 7]]) 3 r).1 ≤
          (cdpCell (listW [3, 4, 5]) (listP [[10, 2, 3], [2, 5, 4], [3, 4, 7]]) 3 b).1) ∧
      (∀ r, r < b →
        (cdpCell (listW [3, 4, 5]) (listP [[10, 2, 3], [2, 5, 4], [3, 4, 7]]) 3 r).1 <
          (cdpCell (listW [3, 4, 5]) (listP [[10, 2, 3], [2, 5, 4], [3, 4, 7]]) 3 b).1) :=
  ⟨(claim_C2_thm 3 (listW [3, 4, 5]) (listP [[10, 2, 3], [2, 5, 4], [3, 4, 7]]) 7).1 3 7,
    (claim_C2_thm 3 (listW [3, 4, 5]) (listP [[10, 2, 3], [2, 5, 4], [3, 4, 7]]) 7).2⟩

/-- Claim C3: `compute_profit_and_items` returns `(None, ∅)` exactly when the
candidate set's total weight exceeds the capacity; otherwise it returns the
candidate set unchanged together with the sum of the self-profits and exactly
one matrix entry per unordered pair of distinct members (the entry `p i j`
with `i < j`, never both `p i j` and `p j i`). -/
theorem claim_C3_thm (w : ℕ → ℕ) (p : ℕ → ℕ → ℤ) (c : ℕ) (s : Finset ℕ) :
    (((compute_profit_and_items w p c s).1 = none ∧
        (compute_profit_and_items w p c s).2 = ∅) ↔ c < wsum w s) ∧
    (wsum w s ≤ c →
      compute_profit_and_items w p c s =
        (some (∑ i ∈ s, p i i +
          ∑ q ∈ (s ×ˢ s).filter (fun q => q.1 < q.2), p q.1 q.2), s)) := by
  by_cases h : c < wsum w s
  · refine ⟨by simp [compute_profit_and_items, if_pos h, h], fun hle => ?_⟩
    omega
  · refine ⟨by simp [compute_profit_and_items, if_neg h, h], fun _ => ?_⟩
    simp only [compute_profit_and_items, if_neg h]
    rw [validatorProfit_offDiag p s]

/-- Witness for claim C3: the validator theorem applied to the concrete
feasible candidate set containing items 0 and 1. -/
theorem claim_C3_witness :
    (((compute_profit_and_items (listW [1, 2]) (listP [[1, 2], [3, 4]]) 3 {0, 1}).1 =
        none ∧
      (compute_profit_and_items (listW [1, 2]) (listP [[1, 2], [3, 4]]) 3 {0, 1}).2 =
        ∅) ↔ 3 < wsum (listW [1, 2]) {0, 1}) ∧
    compute_profit_and_items (listW [1, 2]) (listP [[1, 2], [3, 4]]) 3 {0, 1} =
      (some (∑ i ∈ ({0, 1} : Finset ℕ), listP [[1, 2], [3, 4]] i i +
        ∑ q ∈ (({0, 1} : Finset ℕ) ×ˢ ({0, 1} : Finset ℕ)).filter
          (fun q => q.1 < q.2), listP [[1, 2], [3, 4]] q.1 q.2), {0, 1}) :=
  ⟨(claim_C3_thm (listW [1, 2]) (listP [[1, 2], [3, 4]]) 3 {0, 1}).1,
    (claim_C3_thm (listW [1, 2]) (listP [[1, 2], [3, 4]]) 3 {0, 1}).2 (by decide)⟩

/-- Claim C4: in both heuristic engines, when the include-candidate profit
exactly equals the current cell value, the include branch overwrites the cell
if and only if its resulting witness (the source witness with item `k`
inserted) contains strictly more items than the incumbent witness.  For the
2-D engine the source witness never contains `k` (its items come from the
first `k` items); for the rolling engine that fact is a hypothesis, justified
by the pass invariant of the descending update order (claim C8). -/
theorem claim_C4_thm :
    (∀ (w : ℕ → ℕ) (p : ℕ → ℕ → ℤ) (k r : ℕ) (q : ℤ),
      w k ≤ r →
      (h2Cell w p k (r - w k)).1 = (q : WithBot ℤ) →
      ((q + p k k + ∑ j ∈ (h2Cell w p k (r - w k)).2, p k j : ℤ) : WithBot ℤ) =
        (h2Cell w p k r).1 →
      h2Cell w p (k + 1) r =
        if (h2Cell w p k r).2.card < (insert k (h2Cell w p k (r - w k)).2).card then
          (((q + p k k + ∑ j ∈ (h2Cell w p k (r - w k)).2, p k j : ℤ) : WithBot ℤ),
            insert k (h2Cell w p k (r - w k)).2)
        else h2Cell w p k r) ∧
    (∀ (p : ℕ → ℕ → ℤ) (k wk : ℕ) (st : ℕ → WithBot ℤ × Finset ℕ) (r : ℕ) (q : ℤ),
      (st (r - wk)).1 = (q : WithBot ℤ) →
      k ∉ (st (r - wk)).2 →
      ((q + p k k + ∑ j ∈ (st (r - wk)).2, p k j : ℤ) : WithBot ℤ) = (st r).1 →
      h3Update p k wk st r =
        if (st r).2.card < (insert k (st (r - wk)).2).card then
          Function.update st r
            (((q + p k k + ∑ j ∈ (st (r - wk)).2, p k j : ℤ) : WithBot ℤ),
              insert k (st (r - wk)).2)
        else st) := by
  constructor
  · intro w p k r q hwk hq htie
    have hk : k ∉ (h2Cell w p k (r - w k)).2 := by
      rcases h2Cell_inv w p k (r - w k) with ⟨hb, _⟩ | ⟨q', _, hsub, _, _⟩
      · rw [hb] at hq
        exact absurd hq.symm (WithBot.coe_ne_bot)
      · exact fun hm => lt_irrefl k (Finset.mem_range.mp (hsub hm))
    have hcard : (insert k (h2Cell w p k (r - w k)).2).card =
        (h2Cell w p k (r - w k)).2.card + 1 :=
      Finset.card_insert_of_not_mem hk
    have heq : h2Cell w p (k + 1) r =
        heurStep p k (h2Cell w p k r) (h2Cell w p k (r - w k)) := by
      simp only [h2Cell, if_pos hwk]
    rw [heq, heurStep_coe p k _ _ q hq, hcard]
    by_cases hc : (h2Cell w p k r).2.card < (h2Cell w p k (r - w k)).2.card + 1
    · rw [if_pos (Or.inr ⟨htie, hc⟩), if_pos hc]
    · have hnc : ¬ ((h2Cell w p k r).1 <
          ((q + p k k + ∑ j ∈ (h2Cell w p k (r - w k)).2, p k j : ℤ) : WithBot ℤ) ∨
          (((q + p k k + ∑ j ∈ (h2Cell w p k (r - w k)).2, p k j : ℤ) : WithBot ℤ) =
              (h2Cell w p k r).1 ∧
            (h2Cell w p k r).2.card < (h2Cell w p k (r - w k)).2.card + 1)) := by
        rintro (hlt | ⟨_, hcc⟩)
        · rw [htie] at hlt
          exact lt_irrefl _ hlt
        · exact hc hcc
      rw [if_neg hnc, if_neg hc]
  · intro p k wk st r q hq hk htie
    have hcard : (insert k (st (r - wk)).2).card = (st (r - wk)).2.card + 1 :=
      Finset.card_insert_of_not_mem hk
    have heq : h3Update p k wk st r =
        Function.update st r (heurStep p k (st r) (st (r - wk))) := rfl
    rw [heq, heurStep_coe p k _ _ q hq, hcard]
    by_cases hc : (st r).2.card < (st (r - wk)).2.card + 1
    · rw [if_pos (Or.inr ⟨htie, hc⟩), if_pos hc]
    · have hnc : ¬ ((st r).1 <
          ((q + p k k + ∑ j ∈ (st (r - wk)).2, p k j : ℤ) : WithBot ℤ) ∨
          (((q + p k k + ∑ j ∈ (st (r - wk)).2, p k j : ℤ) : WithBot ℤ) = (st r).1 ∧
            (st r).2.card < (st (r - wk)).2.card + 1)) := by
        rintro (hlt | ⟨_, hcc⟩)
        · rw [htie] at hlt
          exact lt_irrefl _ hlt
        · exact hc hcc
      rw [if_neg hnc, if_neg hc, Function.update_eq_self]

/-- Witness for claim C4: concrete exact ties in both engines, where the
resulting witness would have the same size as the incumbent, so the incumbent
is kept. -/
theorem claim_C4_witness :
    h2Cell (listW [1, 1]) zeroMatrix 2 1 = (((0 : ℤ) : WithBot ℤ), {0}) ∧
    (h3Update zeroMatrix 1 1 tieState 1) 1 = (((0 : ℤ) : WithBot ℤ), {0}) := by
  constructor
  · have h := claim_C4_thm.1 (listW [1, 1]) zeroMatrix 1 1 0
      (by decide) (by decide) (by decide)
    rw [h]
    decide
  · have h := claim_C4_thm.2 zeroMatrix 1 1 tieState 1 0
      (by decide) (by decide) (by decide)
    rw [h]
    decide

lemma cdpCell_capzero (w : ℕ → ℕ) (p : ℕ → ℕ → ℤ) :
    ∀ k, (∀ i, i < k → 0 < w i) → cdpCell w p k 0 = (0, ∅)
  | 0, _ => rfl
  | k + 1, h => by
    have hwk : ¬ w k ≤ 0 := by
      have := h k (Nat.lt_succ_self k)
      omega
    have heq : cdpCell w p (k + 1) 0 = cdpCell w p k 0 := by
      simp only [cdpCell, if_neg hwk]
    rw [heq]
    exact cdpCell_capzero w p k fun i hi => h i (Nat.lt_succ_of_lt hi)

lemma h2Cell_capzero (w : ℕ → ℕ) (p : ℕ → ℕ → ℤ) :
    ∀ k, (∀ i, i < k → 0 < w i) → h2Cell w p k 0 = ((0 : WithBot ℤ), ∅)
  | 0, _ => by simp [h2Cell]
  | k + 1, h => by
    have hwk : ¬ w k ≤ 0 := by
      have := h k (Nat.lt_succ_self k)
      omega
    have heq : h2Cell w p (k + 1) 0 = h2Cell w p k 0 := by
      simp only [h2Cell, if_neg hwk]
    rw [heq]
    exact h2Cell_capzero w p k fun i hi => h i (Nat.lt_succ_of_lt hi)

lemma h3State_capzero (w : ℕ → ℕ) (p : ℕ → ℕ → ℤ) :
    ∀ m, (∀ i, i < m → 0 < w i) →
      h3State w p 0 m = fun r => (if r = 0 then (0 : WithBot ℤ) else ⊥, ∅)
  | 0, _ => rfl
  | m + 1, h => by
    have hwm : 0 + 1 - w m = 0 := by
      have := h m (Nat.lt_succ_self m)
      omega
    have heq : h3State w p 0 (m + 1) =
        (downFrom 0 (0 + 1 - w m)).foldl (h3Update p m (w m)) (h3State w p 0 m) := by
      simp only [h3State]
    rw [heq, hwm]
    exact h3State_capzero w p m fun i hi => h i (Nat.lt_succ_of_lt hi)

/-- Claim C5 as stated is false: with capacity 0 and the permitted zero-weight
item of weight 0 and self-profit 5, every engine selects item 0 and returns
profit 5, not the empty set with profit 0. -/
theorem claim_C5_counterexample :
    classical_dp_qkp 1 (listW [0]) (listP [[5]]) 0 = ({0}, 5) ∧
    dp_heuristic_algo2 1 (listW [0]) (listP [[5]]) 0 = ({0}, ((5 : ℤ) : WithBot ℤ)) ∧
    dp_heuristic_algo3 1 (listW [0]) (listP [[5]]) 0 = ({0}, ((5 : ℤ) : WithBot ℤ)) :=
  ⟨by decide, by decide, by decide⟩

/-- Claim C5 (amended): each engine returns the empty set and zero profit on
every instance with no items, and on every zero-capacity instance whose
weights are all positive (zero-weight items can be selected at capacity 0, as
the counterexample shows). -/
theorem claim_C5_thm (n : ℕ) (w : ℕ → ℕ) (p : ℕ → ℕ → ℤ) (c : ℕ)
    (h : n = 0 ∨ (c = 0 ∧ ∀ i, i < n → 0 < w i)) :
    classical_dp_qkp n w p c = (∅, 0) ∧
    dp_heuristic_algo2 n w p c = (∅, (0 : WithBot ℤ)) ∧
    dp_heuristic_algo3 n w p c = (∅, (0 : WithBot ℤ)) := by
  rcases h with rfl | ⟨rfl, hw⟩
  · refine ⟨rfl, ?_, ?_⟩
    · have hb : bestIdx (fun r => (h2Cell w p 0 r).1) c = 0 := by
        refine bestIdx_eq_zero _ c fun r _ => ?_
        by_cases hr : r = 0 <;> simp [h2Cell, hr]
      unfold dp_heuristic_algo2
      rw [hb]
      simp [h2Cell]
    · have hb : bestIdx (fun r => (h3State w p c 0 r).1) c = 0 := by
        refine bestIdx_eq_zero _ c fun r _ => ?_
        by_cases hr : r = 0 <;> simp [h3State, hr]
      unfold dp_heuristic_algo3
      rw [hb]
      simp [h3State]
  · refine ⟨?_, ?_, ?_⟩
    · have hb : bestIdx (fun r => (cdpCell w p n r).1) 0 = 0 := rfl
      unfold classical_dp_qkp
      rw [hb, cdpCell_capzero w p n hw]
    · have hb : bestIdx (fun r => (h2Cell w p n r).1) 0 = 0 := rfl
      unfold dp_heuristic_algo2
      rw [hb, h2Cell_capzero w p n hw]
    · have hb : bestIdx (fun r => (h3State w p 0 n r).1) 0 = 0 := rfl
      unfold dp_heuristic_algo3
      rw [hb, h3State_capzero w p n hw]
      simp

/-- Witness for claim C5: the amended boundary theorem applied to a concrete
zero-capacity instance with positive weights. -/
theorem claim_C5_witness :
    classical_dp_qkp 2 (fun _ => 1) (listP [[1, 2], [2, 1]]) 0 = (∅, 0) ∧
    dp_heuristic_algo2 2 (fun _ => 1) (listP [[1, 2], [2, 1]]) 0 =
      (∅, (0 : WithBot ℤ)) ∧
    dp_heuristic_algo3 2 (fun _ => 1) (listP [[1, 2], [2, 1]]) 0 =
      (∅, (0 : WithBot ℤ)) :=
  claim_C5_thm 2 (fun _ => 1) (listP [[1, 2], [2, 1]]) 0
    (Or.inr ⟨rfl, fun _ _ => Nat.one_pos⟩)

lemma exc_bind_ok {α β : Type} (a : α) (f : α → Except Unit β) :
    (Except.ok a : Except Unit α) >>= f = f a := rfl

/-- Claim C6 as stated is false: on the mismatched call with one weight and an
empty (0×0) profit matrix, no engine detects or reports anything — all three
run their DP to completion and return the empty selection with profit 0
(the only failure channel of the list-indexed embedding, an out-of-range
access, is never taken, and no validation precedes table population). -/
theorem claim_C6_counterexample :
    classical_dp_qkpE [1] [] 0 = Except.ok (∅, 0) ∧
    dp_heuristic_algo2E [1] [] 0 = Except.ok (∅, ((0 : ℤ) : WithBot ℤ)) ∧
    dp_heuristic_algo3E [1] [] 0 = Except.ok (∅, ((0 : ℤ) : WithBot ℤ)) :=
  ⟨rfl, rfl, rfl⟩

/-- Claim C6 (amended): the engines perform no dimension validation at all; a
call whose weight count (1) exceeds the profit-matrix dimension (0) is not
rejected — whenever the capacity lets no item fit, each engine completes
normally and returns the empty selection with profit 0. -/
theorem claim_C6_thm (wt : ℕ) (hwt : 0 < wt) :
    classical_dp_qkpE [wt] [] 0 = Except.ok (∅, 0) ∧
    dp_heuristic_algo2E [wt] [] 0 = Except.ok (∅, ((0 : ℤ) : WithBot ℤ)) ∧
    dp_heuristic_algo3E [wt] [] 0 = Except.ok (∅, ((0 : ℤ) : WithBot ℤ)) := by
  obtain ⟨s, rfl⟩ : ∃ s, wt = s + 1 := ⟨wt - 1, by omega⟩
  refine ⟨rfl, rfl, ?_⟩
  have hw0 : (0 : ℕ) + 1 - (s + 1) = 0 := by omega
  simp only [dp_heuristic_algo3E, List.length_cons, List.length_nil, List.range_succ,
    List.range_zero, List.nil_append, List.foldlM_cons, List.foldlM_nil, getE,
    List.getElem?_cons_zero, pure_bind, bind_assoc, exc_bind_ok, hw0, downFrom,
    bind_pure]
  rfl

/-- Witness for claim C6: the no-validation theorem applied at weight 2. -/
theorem claim_C6_witness :
    classical_dp_qkpE [2] [] 0 = Except.ok (∅, 0) ∧
    dp_heuristic_algo2E [2] [] 0 = Except.ok (∅, ((0 : ℤ) : WithBot ℤ)) ∧
    dp_heuristic_algo3E [2] [] 0 = Except.ok (∅, ((0 : ℤ) : WithBot ℤ)) :=
  claim_C6_thm 2 (by omega)

/-- Claim C7: the two heuristic engines never return the internal `-inf`
infeasibility sentinel as the final profit; the base cell at capacity 0 stays
feasible and at least 0, so the argmax cell is a genuine profit value. -/
theorem claim_C7_thm (n : ℕ) (w : ℕ → ℕ) (p : ℕ → ℕ → ℤ) (c : ℕ) :
    (dp_heuristic_algo2 n w p c).2 ≠ ⊥ ∧ (dp_heuristic_algo3 n w p c).2 ≠ ⊥ := by
  constructor
  · have hnn : (0 : WithBot ℤ) ≤
        (h2Cell w p n (bestIdx (fun r => (h2Cell w p n r).1) c)).1 :=
      le_trans (h2Cell_zero_nonneg w p n)
        (le_f_bestIdx (fun r => (h2Cell w p n r).1) c 0 (Nat.zero_le c))
    intro hb
    rw [show (dp_heuristic_algo2 n w p c).2 =
        (h2Cell w p n (bestIdx (fun r => (h2Cell w p n r).1) c)).1 from rfl] at hb
    rw [hb] at hnn
    have h0 : ((0 : ℤ) : WithBot ℤ) ≤ ⊥ := by rw [WithBot.coe_zero]; exact hnn
    exact WithBot.not_coe_le_bot 0 h0
  · have hnn : (0 : WithBot ℤ) ≤
        (h3State w p c n (bestIdx (fun r => (h3State w p c n r).1) c)).1 :=
      le_trans (h3State_zero_nonneg w p c n)
        (le_f_bestIdx (fun r => (h3State w p c n r).1) c 0 (Nat.zero_le c))
    intro hb
    rw [show (dp_heuristic_algo3 n w p c).2 =
        (h3State w p c n (bestIdx (fun r => (h3State w p c n r).1) c)).1 from rfl] at hb
    rw [hb] at hnn
    have h0 : ((0 : ℤ) : WithBot ℤ) ≤ ⊥ := by rw [WithBot.coe_zero]; exact hnn
    exact WithBot.not_coe_le_bot 0 h0

/-- Claim C8: after every item pass of the rolling engine, every cell is either
the untouched infeasible sentinel with an empty witness, or a feasible value
equal to the accumulated profit of its witness (self-profits plus one entry
`p i j` per in-set pair for the later-added item `i` against the earlier
item `j`, the content of `qkpProfit`), with the witness drawn from the items
processed so far (so pass `k` never reads a witness already containing `k`)
and its total weight at most the cell's capacity index. -/
theorem claim_C8_thm (w : ℕ → ℕ) (p : ℕ → ℕ → ℤ) (c m r : ℕ) :
    ((h3State w p c m r).1 = ⊥ ∧ (h3State w p c m r).2 = ∅) ∨
    (∃ q : ℤ, (h3State w p c m r).1 = (q : WithBot ℤ) ∧
      (h3State w p c m r).2 ⊆ Finset.range m ∧
      wsum w (h3State w p c m r).2 ≤ r ∧
      q = qkpProfit p (h3State w p c m r).2) :=
  h3State_inv w p c m r

lemma cdpCell_scenario3 (p : ℕ → ℕ → ℤ) :
    ∀ k, k ≤ 4 → ∀ r, r ≤ 2 → cdpCell (listW [5, 4, 6, 7]) p k r = (0, ∅) := by
  intro k
  induction k with
  | zero => intro _ r _; rfl
  | succ k ih =>
    intro hk r hr
    have hk3 : k ≤ 3 := by omega
    have hwk : ¬ listW [5, 4, 6, 7] k ≤ r := by
      interval_cases k <;> simp [listW] <;> omega
    have heq : cdpCell (listW [5, 4, 6, 7]) p (k + 1) r =
        cdpCell (listW [5, 4, 6, 7]) p k r := by
      simp only [cdpCell, if_neg hwk]
    rw [heq]
    exact ih (by omega) r hr

lemma h2Cell_scenario3 (p : ℕ → ℕ → ℤ) :
    ∀ k, k ≤ 4 → ∀ r, r ≤ 2 →
      h2Cell (listW [5, 4, 6, 7]) p k r = (if r = 0 then (0 : WithBot ℤ) else ⊥, ∅) := by
  intro k
  induction k with
  | zero => intro _ r _; rfl
  | succ k ih =>
    intro hk r hr
    have hk3 : k ≤ 3 := by omega
    have hwk : ¬ listW [5, 4, 6, 7] k ≤ r := by
      interval_cases k <;> simp [listW] <;> omega
    have heq : h2Cell (listW [5, 4, 6, 7]) p (k + 1) r =
        h2Cell (listW [5, 4, 6, 7]) p k r := by
      simp only [h2Cell, if_neg hwk]
    rw [heq]
    exact ih (by omega) r hr

lemma h3State_scenario3 (p : ℕ → ℕ → ℤ) :
    ∀ m, m ≤ 4 →
      h3State (listW [5, 4, 6, 7]) p 2 m =
        fun r => (if r = 0 then (0 : WithBot ℤ) else ⊥, ∅) := by
  intro m
  induction m with
  | zero => intro _; rfl
  | succ m ih =>
    intro hm
    have hm3 : m ≤ 3 := by omega
    have hw0 : 2 + 1 - listW [5, 4, 6, 7] m = 0 := by
      interval_cases m <;> simp [listW]
    have heq : h3State (listW [5, 4, 6, 7]) p 2 (m + 1) =
        (downFrom 2 (2 + 1 - listW [5, 4, 6, 7] m)).foldl
          (h3Update p m (listW [5, 4, 6, 7] m)) (h3State (listW [5, 4, 6, 7]) p 2 m) := by
      simp only [h3State]
    rw [heq, hw0]
    exact ih (by omega)

/-- Claim C9: with weights [5, 4, 6, 7] and capacity 2, no item fits, so for
every 4×4 profit matrix all three engines return the empty set and profit 0. -/
theorem claim_C9_thm (p : ℕ → ℕ → ℤ) :
    classical_dp_qkp 4 (listW [5, 4, 6, 7]) p 2 = (∅, 0) ∧
    dp_heuristic_algo2 4 (listW [5, 4, 6, 7]) p 2 = (∅, (0 : WithBot ℤ)) ∧
    dp_heuristic_algo3 4 (listW [5, 4, 6, 7]) p 2 = (∅, (0 : WithBot ℤ)) := by
  refine ⟨?_, ?_, ?_⟩
  · have hb : bestIdx (fun r => (cdpCell (listW [5, 4, 6, 7]) p 4 r).1) 2 = 0 := by
      refine bestIdx_eq_zero _ 2 fun r hr => ?_
      rw [cdpCell_scenario3 p 4 (le_refl 4) r hr,
        cdpCell_scenario3 p 4 (le_refl 4) 0 (by omega)]
    unfold classical_dp_qkp
    rw [hb, cdpCell_scenario3 p 4 (le_refl 4) 0 (by omega)]
  · have hb : bestIdx (fun r => (h2Cell (listW [5, 4, 6, 7]) p 4 r).1) 2 = 0 := by
      refine bestIdx_eq_zero _ 2 fun r hr => ?_
      rw [h2Cell_scenario3 p 4 (le_refl 4) r hr,
        h2Cell_scenario3 p 4 (le_refl 4) 0 (by omega)]
      by_cases hr0 : r = 0 <;> simp [hr0]
    unfold dp_heuristic_algo2
    rw [hb, h2Cell_scenario3 p 4 (le_refl 4) 0 (by omega)]
    simp
  · have hs := h3State_scenario3 p 4 (le_refl 4)
    have hb : bestIdx (fun r => (h3State (listW [5, 4, 6, 7]) p 2 4 r).1) 2 = 0 := by
      refine bestIdx_eq_zero _ 2 fun r hr => ?_
      rw [hs]
      by_cases hr0 : r = 0 <;> simp [hr0]
    unfold dp_heuristic_algo3
    rw [hb, hs]
    simp

/-- Claim C10: every engine returns a profit that is at least 0, on every
instance, including profit matrices with negative entries: the exact engine's
cells never drop below the all-zero base row, and in the heuristic engines the
zero-profit cell at capacity 0 survives to the final maximum. -/
theorem claim_C10_thm (n : ℕ) (w : ℕ → ℕ) (p : ℕ → ℕ → ℤ) (c : ℕ) :
    0 ≤ (classical_dp_qkp n w p c).2 ∧
    (0 : WithBot ℤ) ≤ (dp_heuristic_algo2 n w p c).2 ∧
    (0 : WithBot ℤ) ≤ (dp_heuristic_algo3 n w p c).2 := by
  refine ⟨?_, ?_, ?_⟩
  · obtain ⟨_, _, _, h0⟩ :=
      cdpCell_inv w p n (bestIdx (fun r => (cdpCell w p n r).1) c)
    exact h0
  · exact le_trans (h2Cell_zero_nonneg w p n)
      (le_f_bestIdx (fun r => (h2Cell w p n r).1) c 0 (Nat.zero_le c))
  · exact le_trans (h3State_zero_nonneg w p c n)
      (le_f_bestIdx (fun r => (h3State w p c n r).1) c 0 (Nat.zero_le c))

/-- Witness for claim C7: the sentinel-freedom theorem at a concrete instance. -/
theorem claim_C7_witness :
    (dp_heuristic_algo2 1 (listW [1]) (listP [[2]]) 1).2 ≠ ⊥ ∧
    (dp_heuristic_algo3 1 (listW [1]) (listP [[2]]) 1).2 ≠ ⊥ :=
  claim_C7_thm 1 (listW [1]) (listP [[2]]) 1

/-- Witness for claim C8: the pass invariant at a concrete instance. -/
theorem claim_C8_witness :
    ((h3State (listW [1]) (listP [[2]]) 1 1 1).1 = ⊥ ∧
      (h3State (listW [1]) (listP [[2]]) 1 1 1).2 = ∅) ∨
    (∃ q : ℤ, (h3State (listW [1]) (listP [[2]]) 1 1 1).1 = (q : WithBot ℤ) ∧
      (h3State (listW [1]) (listP [[2]]) 1 1 1).2 ⊆ Finset.range 1 ∧
      wsum (listW [1]) (h3State (listW [1]) (listP [[2]]) 1 1 1).2 ≤ 1 ∧
      q = qkpProfit (listP [[2]]) (h3State (listW [1]) (listP [[2]]) 1 1 1).2) :=
  claim_C8_thm (listW [1]) (listP [[2]]) 1 1 1

/-- Witness for claim C9: the no-item-fits theorem at a concrete 4×4 matrix. -/
theorem claim_C9_witness :
    classical_dp_qkp 4 (listW [5, 4, 6, 7])
      (listP [[10, 2, 3, 4], [2, 5, 4, 6], [3, 4, 7, 1], [4, 6, 1, 9]]) 2 = (∅, 0) ∧
    dp_heuristic_algo2 4 (listW [5, 4, 6, 7])
      (listP [[10, 2, 3, 4], [2, 5, 4, 6], [3, 4, 7, 1], [4, 6, 1, 9]]) 2 =
        (∅, (0 : WithBot ℤ)) ∧
    dp_heuristic_algo3 4 (listW [5, 4, 6, 7])
      (listP [[10, 2, 3, 4], [2, 5, 4, 6], [3, 4, 7, 1], [4, 6, 1, 9]]) 2 =
        (∅, (0 : WithBot ℤ)) :=
  claim_C9_thm (listP [[10, 2, 3, 4], [2, 5, 4, 6], [3, 4, 7, 1], [4, 6, 1, 9]])

/-- Witness for claim C10: non-negative returned profit on a matrix with
negative entries. -/
theorem claim_C10_witness :
    0 ≤ (classical_dp_qkp 2 (listW [1, 2]) (listP [[1, -3], [-3, 2]]) 3).2 ∧
    (0 : WithBot ℤ) ≤ (dp_heuristic_algo2 2 (listW [1, 2]) (listP [[1, -3], [-3, 2]]) 3).2 ∧
    (0 : WithBot ℤ) ≤ (dp_heuristic_algo3 2 (listW [1, 2]) (listP [[1, -3], [-3, 2]]) 3).2 :=
  claim_C10_thm 2 (listW [1, 2]) (listP [[1, -3], [-3, 2]]) 3
